import Mathlib

/-!
Verification of the in-memory Todo repository
(`src/repositories.rs`, `TodoRepositoryForMemory`).

The Rust store is a `HashMap<i32, Todo>` behind an `Arc<RwLock<..>>`.  We
embed it shallowly and sequentially: a state is the finite mapping from ids
to records, modelled as an association list with `HashMap` semantics
(`get` finds the unique entry for a key, `insert` replaces any entry at the
key, `remove` drops it, `len` is the number of entries, `values` the stored
records in unspecified order).  Every operation of the Rust `impl` becomes a
pure function from a state to a result and a new state; `anyhow::Result` is
embedded as `Except RepositoryError`.  Rust `i32` values are embedded as
`Int`, and the one place the source casts (`(store.len() + 1) as i32`) is
embedded with the exact two's-complement wrap of the `as` cast.
-/

set_option autoImplicit false

namespace TodoMem

/-- The `Todo` model struct: `id: i32`, `text: String`, `completed: bool`. -/
structure Todo where
  id : Int
  text : String
  completed : Bool
deriving DecidableEq, Repr

/-- The `CreateTodo` payload: just `text`.  (Its `validator` length
attributes are enforced by the HTTP boundary, not by the store, so they do
not appear in the store's semantics.) -/
structure CreateTodo where
  text : String
deriving DecidableEq, Repr

/-- The `UpdateTodo` partial payload: optional `text`, optional `completed`. -/
structure UpdateTodo where
  text : Option String
  completed : Option Bool
deriving DecidableEq, Repr

/-- `RepositoryError`: the single domain error `NotFound(i32)`. -/
inductive RepositoryError where
  | NotFound (id : Int)
deriving DecidableEq, Repr

/-- `Todo::new(id, text)` sets `completed` to `false`. -/
def Todo.new (id : Int) (text : String) : Todo :=
  { id := id, text := text, completed := false }

/-- `type TodoDatas = HashMap<i32, Todo>`, as an association list whose
reachable states have no duplicate keys. -/
abbrev TodoDatas : Type := List (Int × Todo)

namespace TodoDatas

/-- `HashMap::get`: the value stored at key `k`, if any. -/
def get : TodoDatas → Int → Option Todo
  | [], _ => none
  | (k', v) :: rest, k => if k' = k then some v else get rest k

/-- Drop every entry whose key is `k` (on duplicate-free states, the one
entry at `k`). -/
def eraseKey : TodoDatas → Int → TodoDatas
  | [], _ => []
  | (k', v) :: rest, k => if k' = k then eraseKey rest k else (k', v) :: eraseKey rest k

/-- `HashMap::insert`: map `k` to `v`, replacing any previous entry at `k`. -/
def insert (m : TodoDatas) (k : Int) (v : Todo) : TodoDatas :=
  (k, v) :: eraseKey m k

/-- `HashMap::remove`: drop the entry at `k`, if any. -/
def remove (m : TodoDatas) (k : Int) : TodoDatas :=
  eraseKey m k

/-- `HashMap::len`: the number of stored entries. -/
def len (m : TodoDatas) : Nat := List.length m

/-- `HashMap::values` (cloned out by `all`), in the container's order. -/
def values (m : TodoDatas) : List Todo := List.map Prod.snd m

/-- The keys of the store, in the container's order. -/
def keys (m : TodoDatas) : List Int := List.map Prod.fst m

/-- The empty store (`Arc::default()`). -/
def empty : TodoDatas := []

end TodoDatas

/-- The Rust cast `as i32` applied to a nonnegative size: two's-complement
wrap of a `usize` into `i32`. -/
def i32ofNat (n : Nat) : Int :=
  if n % 4294967296 < 2147483648 then ((n % 4294967296 : Nat) : Int)
  else ((n % 4294967296 : Nat) : Int) - 4294967296

/-- `fn create(&self, payload: CreateTodo) -> Todo`: assign
`id = (store.len() + 1) as i32`, build `Todo::new(id, payload.text)`,
insert it, return it.  The returned record and the successor state. -/
def create (store : TodoDatas) (payload : CreateTodo) : Todo × TodoDatas :=
  let id := i32ofNat (store.len + 1)
  let todo := Todo.new id payload.text
  (todo, store.insert id todo)

/-- `fn find(&self, id: i32) -> Option<Todo>`: clone of the stored record. -/
def find (store : TodoDatas) (id : Int) : Option Todo :=
  store.get id

/-- `fn all(&self) -> Vec<Todo>`: clones of all stored records. -/
def all (store : TodoDatas) : List Todo :=
  store.values

/-- `fn update(&self, id, payload: UpdateTodo) -> anyhow::Result<Todo>`:
look up `id` (else `NotFound(id)`), merge unset payload fields from the
existing record, store and return the merged record. -/
def update (store : TodoDatas) (id : Int) (payload : UpdateTodo) :
    Except RepositoryError (Todo × TodoDatas) :=
  match store.get id with
  | none => Except.error (RepositoryError.NotFound id)
  | some todo =>
      let text := payload.text.getD todo.text
      let completed := payload.completed.getD todo.completed
      let todo' : Todo := { id := id, text := text, completed := completed }
      Except.ok (todo', store.insert id todo')

/-- `fn delete(&self, id: i32) -> anyhow::Result<()>`:
`store.remove(&id).ok_or(NotFound(id))`. -/
def delete (store : TodoDatas) (id : Int) :
    Except RepositoryError TodoDatas :=
  match store.get id with
  | none => Except.error (RepositoryError.NotFound id)
  | some _ => Except.ok (store.remove id)

/-- One repository call, as issued by a caller. -/
inductive Op where
  | create (payload : CreateTodo)
  | find (id : Int)
  | all
  | update (id : Int) (payload : UpdateTodo)
  | delete (id : Int)
deriving DecidableEq, Repr

instance {ε α : Type} [DecidableEq ε] [DecidableEq α] : DecidableEq (Except ε α) :=
  fun x y =>
    match x, y with
    | Except.ok a, Except.ok b =>
        if h : a = b then Decidable.isTrue (congrArg Except.ok h)
        else Decidable.isFalse (fun he => h (Except.ok.inj he))
    | Except.error a, Except.error b =>
        if h : a = b then Decidable.isTrue (congrArg Except.error h)
        else Decidable.isFalse (fun he => h (Except.error.inj he))
    | Except.ok _, Except.error _ => Decidable.isFalse (fun he => Except.noConfusion he)
    | Except.error _, Except.ok _ => Decidable.isFalse (fun he => Except.noConfusion he)

/-- The value returned by one repository call. -/
inductive Output where
  | created (todo : Todo)
  | found (result : Option Todo)
  | listed (todos : List Todo)
  | updated (result : Except RepositoryError Todo)
  | deleted (result : Except RepositoryError Unit)
deriving DecidableEq, Repr

/-- Apply one call to a store state: the returned value and the state after
the call.  `find` and `all` only take the read lock and return clones, so
the state is unchanged; a failing `update` or `delete` returns before any
mutation, so the state is unchanged there too. -/
def applyCall (store : TodoDatas) : Op → Output × TodoDatas
  | Op.create p =>
      let r := create store p
      (Output.created r.1, r.2)
  | Op.find id => (Output.found (find store id), store)
  | Op.all => (Output.listed (all store), store)
  | Op.update id p =>
      match update store id p with
      | Except.ok r => (Output.updated (Except.ok r.1), r.2)
      | Except.error e => (Output.updated (Except.error e), store)
  | Op.delete id =>
      match delete store id with
      | Except.ok s => (Output.deleted (Except.ok ()), s)
      | Except.error e => (Output.deleted (Except.error e), store)

/-- The state reached from the empty store by a finite sequence of calls. -/
def runOps (ops : List Op) : TodoDatas :=
  ops.foldl (fun s op => (applyCall s op).2) TodoDatas.empty

/-- The outputs of a sequence of calls from a given state, in order, with
the final state. -/
def runTrace (store : TodoDatas) : List Op → List Output × TodoDatas
  | [] => ([], store)
  | op :: rest =>
      let r := applyCall store op
      let t := runTrace r.2 rest
      (r.1 :: t.1, t.2)

/-! Basic lemmas about the map primitives. -/

namespace TodoDatas

@[simp] theorem get_nil (k : Int) : get [] k = none := rfl

@[simp] theorem get_cons (a : Int) (v : Todo) (rest : TodoDatas) (k : Int) :
    get ((a, v) :: rest) k = if a = k then some v else get rest k := rfl

@[simp] theorem eraseKey_nil (k : Int) : eraseKey [] k = [] := rfl

@[simp] theorem eraseKey_cons (a : Int) (v : Todo) (rest : TodoDatas) (k : Int) :
    eraseKey ((a, v) :: rest) k =
      if a = k then eraseKey rest k else (a, v) :: eraseKey rest k := rfl

@[simp] theorem keys_nil : keys [] = [] := rfl

@[simp] theorem keys_cons (a : Int) (v : Todo) (rest : TodoDatas) :
    keys ((a, v) :: rest) = a :: keys rest := rfl

theorem get_insert_self (m : TodoDatas) (k : Int) (v : Todo) :
    (m.insert k v).get k = some v := by
  simp [insert]

theorem mem_eraseKey (m : TodoDatas) (k : Int) (p : Int × Todo) :
    p ∈ m.eraseKey k ↔ p ∈ m ∧ p.1 ≠ k := by
  induction m with
  | nil => simp
  | cons q rest ih =>
      obtain ⟨a, v⟩ := q
      by_cases ha : a = k
      · subst ha
        rw [eraseKey_cons, if_pos rfl, ih, List.mem_cons]
        constructor
        · exact fun h => ⟨Or.inr h.1, h.2⟩
        · rintro ⟨hm | hm, hne⟩
          · exact absurd (congrArg Prod.fst hm) hne
          · exact ⟨hm, hne⟩
      · rw [eraseKey_cons, if_neg ha, List.mem_cons, ih, List.mem_cons]
        constructor
        · rintro (rfl | h)
          · exact ⟨Or.inl rfl, ha⟩
          · exact ⟨Or.inr h.1, h.2⟩
        · rintro ⟨rfl | hm, hne⟩
          · exact Or.inl rfl
          · exact Or.inr ⟨hm, hne⟩

theorem get_eraseKey_self (m : TodoDatas) (k : Int) :
    (m.eraseKey k).get k = none := by
  induction m with
  | nil => rfl
  | cons q rest ih =>
      obtain ⟨a, v⟩ := q
      by_cases ha : a = k
      · simpa [ha] using ih
      · simpa [ha] using ih

theorem get_eraseKey_ne (m : TodoDatas) (k k' : Int) (h : k' ≠ k) :
    (m.eraseKey k).get k' = m.get k' := by
  induction m with
  | nil => rfl
  | cons q rest ih =>
      obtain ⟨a, v⟩ := q
      by_cases ha : a = k
      · subst ha
        rw [eraseKey_cons, if_pos rfl, ih, get_cons, if_neg (fun hh => h hh.symm)]
      · rw [eraseKey_cons, if_neg ha, get_cons, get_cons, ih]

theorem get_insert_ne (m : TodoDatas) (k k' : Int) (v : Todo) (h : k' ≠ k) :
    (m.insert k v).get k' = m.get k' := by
  rw [insert, get_cons, if_neg (fun hh => h hh.symm), get_eraseKey_ne m k k' h]

theorem get_isSome_iff_mem_keys (m : TodoDatas) (k : Int) :
    (m.get k).isSome = true ↔ k ∈ m.keys := by
  induction m with
  | nil => simp
  | cons q rest ih =>
      obtain ⟨a, v⟩ := q
      by_cases ha : a = k
      · subst ha; simp
      · rw [get_cons, if_neg ha, keys_cons, List.mem_cons, ih]
        have : ¬k = a := fun hh => ha hh.symm
        simp [this]

theorem get_mem (m : TodoDatas) (k : Int) (v : Todo) (h : m.get k = some v) :
    (k, v) ∈ m := by
  induction m with
  | nil => exact absurd h (by simp)
  | cons q rest ih =>
      obtain ⟨a, w⟩ := q
      by_cases ha : a = k
      · subst ha
        rw [get_cons, if_pos rfl] at h
        exact (Option.some.inj h) ▸ List.mem_cons_self _ _
      · rw [get_cons, if_neg ha] at h
        exact List.mem_cons_of_mem _ (ih h)

theorem eraseKey_of_not_mem_keys (m : TodoDatas) (k : Int) (h : k ∉ m.keys) :
    m.eraseKey k = m := by
  induction m with
  | nil => rfl
  | cons q rest ih =>
      obtain ⟨a, v⟩ := q
      rw [keys_cons, List.mem_cons] at h
      push_neg at h
      rw [eraseKey_cons, if_neg (fun hh => h.1 hh.symm), ih h.2]

theorem keys_insert (m : TodoDatas) (k : Int) (v : Todo) :
    (m.insert k v).keys = k :: (m.eraseKey k).keys := rfl

theorem mem_keys_eraseKey (m : TodoDatas) (k k' : Int) :
    k' ∈ (m.eraseKey k).keys ↔ k' ∈ m.keys ∧ k' ≠ k := by
  simp only [keys, List.mem_map]
  constructor
  · rintro ⟨p, hp, rfl⟩
    obtain ⟨hm, hne⟩ := (mem_eraseKey m k p).1 hp
    exact ⟨⟨p, hm, rfl⟩, hne⟩
  · rintro ⟨⟨p, hp, rfl⟩, hne⟩
    exact ⟨p, (mem_eraseKey m k p).2 ⟨hp, hne⟩, rfl⟩

theorem nodup_keys_eraseKey (m : TodoDatas) (k : Int) (h : m.keys.Nodup) :
    (m.eraseKey k).keys.Nodup := by
  induction m with
  | nil => simp
  | cons q rest ih =>
      obtain ⟨a, v⟩ := q
      rw [keys_cons, List.nodup_cons] at h
      by_cases ha : a = k
      · rw [eraseKey_cons, if_pos ha]; exact ih h.2
      · rw [eraseKey_cons, if_neg ha, keys_cons, List.nodup_cons]
        refine ⟨fun hmem => ?_, ih h.2⟩
        exact h.1 ((mem_keys_eraseKey rest k a).1 hmem).1

theorem len_eraseKey_of_mem (m : TodoDatas) (k : Int) (hnd : m.keys.Nodup)
    (h : k ∈ m.keys) : (m.eraseKey k).len + 1 = m.len := by
  induction m with
  | nil => simp at h
  | cons q rest ih =>
      obtain ⟨a, v⟩ := q
      rw [keys_cons, List.nodup_cons] at hnd
      by_cases ha : a = k
      · subst ha
        rw [eraseKey_cons, if_pos rfl, eraseKey_of_not_mem_keys rest a hnd.1]
        rfl
      · rw [keys_cons, List.mem_cons] at h
        rcases h with h | h
        · exact absurd h.symm ha
        · rw [eraseKey_cons, if_neg ha]
          have := ih hnd.2 h
          simp only [len, List.length_cons] at *
          omega

theorem len_insert_of_mem (m : TodoDatas) (k : Int) (v : Todo)
    (hnd : m.keys.Nodup) (h : k ∈ m.keys) : (m.insert k v).len = m.len := by
  have := len_eraseKey_of_mem m k hnd h
  simp only [insert, len, List.length_cons] at *
  omega

theorem len_insert_of_not_mem (m : TodoDatas) (k : Int) (v : Todo)
    (h : k ∉ m.keys) : (m.insert k v).len = m.len + 1 := by
  rw [insert, eraseKey_of_not_mem_keys m k h]
  rfl

end TodoDatas

/-! Arithmetic facts about the `as i32` cast. -/

theorem i32ofNat_inj_mod (a b : Nat) :
    i32ofNat a = i32ofNat b ↔ a % 4294967296 = b % 4294967296 := by
  unfold i32ofNat
  split_ifs <;> omega

theorem i32ofNat_of_lt (n : Nat) (h : n < 2147483648) : i32ofNat n = (n : Int) := by
  unfold i32ofNat
  split_ifs with h1
  · rw [Nat.mod_eq_of_lt (by omega)]
  · omega

/-! The store invariant maintained by delete-free call sequences. -/

/-- Every stored record's `id` field equals the key it is stored under. -/
def IdInv (m : TodoDatas) : Prop := ∀ p ∈ m, (Prod.snd p).id = Prod.fst p

instance (m : TodoDatas) : Decidable (IdInv m) := List.decidableBAll _ m

/-- Invariant of stores built by `create` and `update` alone: keys are
duplicate-free, the key set is exactly the image under the wrapped
successor cast of `1..len`, and every record carries its own key. -/
def StoreInv (m : TodoDatas) : Prop :=
  m.keys.Nodup ∧
  (∀ k : Int, k ∈ m.keys ↔ ∃ j : Nat, j < m.len ∧ k = i32ofNat (j + 1)) ∧
  IdInv m

/-- Whether a call is a `delete`. -/
def Op.isDelete : Op → Bool
  | Op.delete _ => true
  | _ => false

/-- Whether a call is a `create`. -/
def Op.isCreate : Op → Bool
  | Op.create _ => true
  | _ => false

/-- The number of `create` calls in a sequence. -/
def countCreates (ops : List Op) : Nat := (ops.filter Op.isCreate).length

theorem idInv_insert (m : TodoDatas) (k : Int) (v : Todo) (hinv : IdInv m)
    (hv : v.id = k) : IdInv (m.insert k v) := by
  intro p hp
  rw [TodoDatas.insert, List.mem_cons] at hp
  rcases hp with rfl | hp
  · exact hv
  · exact hinv p ((TodoDatas.mem_eraseKey m k p).1 hp).1

theorem storeInv_empty : StoreInv TodoDatas.empty := by
  refine ⟨List.nodup_nil, fun k => ?_, fun p hp => absurd hp (List.not_mem_nil p)⟩
  simp [TodoDatas.empty, TodoDatas.len]

/-- The id chosen by `create` is fresh as long as the store has not grown
past the whole `i32` key space. -/
theorem create_id_fresh (m : TodoDatas) (hinv : StoreInv m)
    (hlen : m.len < 4294967296) : i32ofNat (m.len + 1) ∉ m.keys := by
  intro hmem
  obtain ⟨j, hj, hk⟩ := (hinv.2.1 _).1 hmem
  rw [i32ofNat_inj_mod] at hk
  omega

theorem storeInv_create (m : TodoDatas) (p : CreateTodo) (hinv : StoreInv m)
    (hlen : m.len < 4294967296) :
    StoreInv (create m p).2 ∧ (create m p).2.len = m.len + 1 := by
  have hfresh : i32ofNat (m.len + 1) ∉ m.keys := create_id_fresh m hinv hlen
  obtain ⟨hnd, hchar, hid⟩ := hinv
  have herase := TodoDatas.eraseKey_of_not_mem_keys m _ hfresh
  have hstate : (create m p).2 = (i32ofNat (m.len + 1), Todo.new (i32ofNat (m.len + 1)) p.text) :: m := by
    simp only [create, TodoDatas.insert, herase]
  have hlen' : (create m p).2.len = m.len + 1 := by
    rw [hstate]; rfl
  refine ⟨⟨?_, ?_, ?_⟩, hlen'⟩
  · rw [hstate, TodoDatas.keys_cons]
    exact List.nodup_cons.2 ⟨hfresh, hnd⟩
  · intro k
    rw [hlen', hstate, TodoDatas.keys_cons, List.mem_cons]
    constructor
    · rintro (rfl | hk)
      · exact ⟨m.len, by omega, rfl⟩
      · obtain ⟨j, hj, hk⟩ := (hchar k).1 hk
        exact ⟨j, by omega, hk⟩
    · rintro ⟨j, hj, rfl⟩
      by_cases hjm : j = m.len
      · subst hjm; exact Or.inl rfl
      · exact Or.inr ((hchar _).2 ⟨j, by omega, rfl⟩)
  · rw [hstate]
    intro q hq
    rcases List.mem_cons.1 hq with rfl | hq
    · rfl
    · exact hid q hq

theorem storeInv_update (m : TodoDatas) (id : Int) (p : UpdateTodo)
    (hinv : StoreInv m) :
    StoreInv (applyCall m (Op.update id p)).2 ∧
    (applyCall m (Op.update id p)).2.len = m.len := by
  obtain ⟨hnd, hchar, hid⟩ := hinv
  cases hget : m.get id with
  | none =>
      have : applyCall m (Op.update id p) =
          (Output.updated (Except.error (RepositoryError.NotFound id)), m) := by
        simp [applyCall, update, hget]
      rw [this]
      exact ⟨⟨hnd, hchar, hid⟩, rfl⟩
  | some todo =>
      have hmem : id ∈ m.keys :=
        (TodoDatas.get_isSome_iff_mem_keys m id).1 (by rw [hget]; rfl)
      have hstate : (applyCall m (Op.update id p)).2 =
          m.insert id { id := id, text := p.text.getD todo.text,
                        completed := p.completed.getD todo.completed } := by
        simp [applyCall, update, hget]
      have hlen' := TodoDatas.len_insert_of_mem m id
        { id := id, text := p.text.getD todo.text,
          completed := p.completed.getD todo.completed } hnd hmem
      rw [hstate]
      refine ⟨⟨?_, ?_, ?_⟩, hlen'⟩
      · rw [TodoDatas.keys_insert]
        refine List.nodup_cons.2 ⟨?_, TodoDatas.nodup_keys_eraseKey m id hnd⟩
        intro hc
        exact ((TodoDatas.mem_keys_eraseKey m id id).1 hc).2 rfl
      · intro k
        rw [hlen', TodoDatas.keys_insert, List.mem_cons,
          TodoDatas.mem_keys_eraseKey]
        constructor
        · rintro (rfl | ⟨hk, _⟩)
          · exact (hchar k).1 hmem
          · exact (hchar k).1 hk
        · intro hk
          by_cases hke : k = id
          · exact Or.inl hke
          · exact Or.inr ⟨(hchar k).2 hk, hke⟩
      · exact idInv_insert m id _ hid rfl

theorem storeInv_step (m : TodoDatas) (op : Op) (hinv : StoreInv m)
    (hlen : m.len < 4294967296) (hdel : op.isDelete = false) :
    StoreInv (applyCall m op).2 ∧
    (applyCall m op).2.len = m.len + (if op.isCreate then 1 else 0) := by
  cases op with
  | create p =>
      have h := storeInv_create m p hinv hlen
      exact ⟨h.1, by simpa [Op.isCreate] using h.2⟩
  | find id => exact ⟨hinv, by simp [applyCall, Op.isCreate]⟩
  | all => exact ⟨hinv, by simp [applyCall, Op.isCreate]⟩
  | update id p =>
      have h := storeInv_update m id p hinv
      exact ⟨h.1, by simpa [Op.isCreate] using h.2⟩
  | delete id => exact absurd hdel (by simp [Op.isDelete])

theorem runOps_append_one (ops : List Op) (op : Op) :
    runOps (ops ++ [op]) = (applyCall (runOps ops) op).2 := by
  simp [runOps, List.foldl_append]

theorem countCreates_append_one (ops : List Op) (op : Op) :
    countCreates (ops ++ [op]) =
      countCreates ops + (if op.isCreate then 1 else 0) := by
  simp only [countCreates, List.filter_append, List.length_append]
  cases hc : op.isCreate <;> simp [List.filter, hc]

theorem countCreates_le_length (ops : List Op) : countCreates ops ≤ ops.length :=
  List.length_filter_le _ ops

/-- Main invariant: any delete-free sequence of at most `2^32` calls from
the empty store yields a well-formed store holding one record per `create`
call. -/
theorem storeInv_runOps (ops : List Op)
    (hdel : ∀ op ∈ ops, op.isDelete = false) (hn : ops.length ≤ 4294967296) :
    StoreInv (runOps ops) ∧ (runOps ops).len = countCreates ops := by
  induction ops using List.reverseRecOn with
  | nil => exact ⟨storeInv_empty, rfl⟩
  | append_singleton l op ih =>
      have hdl : ∀ o ∈ l, o.isDelete = false := fun o ho =>
        hdel o (List.mem_append.2 (Or.inl ho))
      have hnl : l.length ≤ 4294967296 := by
        rw [List.length_append] at hn; omega
      obtain ⟨hinv, hlen⟩ := ih hdl hnl
      have hlt : (runOps l).len < 4294967296 := by
        have h1 := countCreates_le_length l
        rw [List.length_append, List.length_singleton] at hn
        omega
      have hstep := storeInv_step (runOps l) op hinv hlt
        (hdel op (List.mem_append.2 (Or.inr (List.mem_singleton.2 rfl))))
      rw [runOps_append_one, countCreates_append_one]
      exact ⟨hstep.1, by rw [hstep.2, hlen]⟩

/-- `IdInv` is preserved by every call, deletes included. -/
theorem idInv_applyCall (m : TodoDatas) (op : Op) (hid : IdInv m) :
    IdInv (applyCall m op).2 := by
  cases op with
  | create p => exact idInv_insert m _ _ hid rfl
  | find id => exact hid
  | all => exact hid
  | update id p =>
      cases hget : m.get id with
      | none => simpa [applyCall, update, hget] using hid
      | some todo =>
          have hstate : (applyCall m (Op.update id p)).2 =
              m.insert id { id := id, text := p.text.getD todo.text,
                            completed := p.completed.getD todo.completed } := by
            simp [applyCall, update, hget]
          rw [hstate]
          exact idInv_insert m id _ hid rfl
  | delete id =>
      cases hget : m.get id with
      | none => simpa [applyCall, delete, hget] using hid
      | some todo =>
          have hstate : (applyCall m (Op.delete id)).2 = m.eraseKey id := by
            simp [applyCall, delete, hget, TodoDatas.remove]
          rw [hstate]
          intro q hq
          exact hid q ((TodoDatas.mem_eraseKey m id q).1 hq).1

/-- Every state reachable by any finite sequence of calls from the empty
store satisfies `IdInv`: each record is stored under its own id. -/
theorem idInv_runOps (ops : List Op) : IdInv (runOps ops) := by
  induction ops using List.reverseRecOn with
  | nil => exact fun p hp => absurd hp (List.not_mem_nil p)
  | append_singleton l op ih =>
      rw [runOps_append_one]
      exact idInv_applyCall (runOps l) op ih

theorem all_len (m : TodoDatas) : (all m).length = m.len := by
  simp [all, TodoDatas.values, TodoDatas.len]

theorem all_map_id_eq_keys (m : TodoDatas) (hid : IdInv m) :
    (all m).map Todo.id = m.keys := by
  simp only [all, TodoDatas.values, TodoDatas.keys, List.map_map]
  exact List.map_congr_left hid

theorem deleteFree_map_create (ps : List CreateTodo) :
    ∀ op ∈ ps.map Op.create, op.isDelete = false := by
  intro op hop
  obtain ⟨p, _, rfl⟩ := List.mem_map.1 hop
  rfl

theorem countCreates_map_create (ps : List CreateTodo) :
    countCreates (ps.map Op.create) = ps.length := by
  rw [countCreates, List.filter_eq_self.2, List.length_map]
  intro op hop
  obtain ⟨p, _, rfl⟩ := List.mem_map.1 hop
  rfl

/-- A store state holding `2147483647` records, at which the `as i32` cast
of `store.len() + 1` wraps. -/
def bigStore : TodoDatas :=
  (List.range 2147483647).map (fun j => (i32ofNat (j + 1), Todo.new (i32ofNat (j + 1)) "t"))

/-! The claims. -/

/-- C1, counterexample: in the state reached from the empty store by
`create "a"; create "b"; delete 1` — a finite sequence of create, update
and delete calls — the next `create` assigns id `2`, which is already
present in the store (the call replaces the record with id 2 instead of
inserting a new one: the store's size does not grow).  Ids are therefore
reused after a delete, refuting the claim as stated. -/
theorem create_id_reuse_after_delete :
    (find (runOps [Op.create (CreateTodo.mk "a"), Op.create (CreateTodo.mk "b"), Op.delete 1])
      ((create (runOps [Op.create (CreateTodo.mk "a"), Op.create (CreateTodo.mk "b"), Op.delete 1])
        (CreateTodo.mk "c")).1.id)).isSome = true ∧
    (create (runOps [Op.create (CreateTodo.mk "a"), Op.create (CreateTodo.mk "b"), Op.delete 1])
      (CreateTodo.mk "c")).2.len =
      (runOps [Op.create (CreateTodo.mk "a"), Op.create (CreateTodo.mk "b"), Op.delete 1]).len := by
  decide

/-- C1, amended: for every state reachable by a finite sequence of fewer
than `2^32` create and update calls (no deletes), `create` assigns an id
that is not already present in the store, and inserts a new record (the
store grows by one). -/
theorem create_id_fresh_of_deleteFree (ops : List Op) (p : CreateTodo)
    (hdel : ∀ op ∈ ops, op.isDelete = false) (hn : ops.length < 4294967296) :
    find (runOps ops) ((create (runOps ops) p).1.id) = none ∧
    (create (runOps ops) p).2.len = (runOps ops).len + 1 := by
  obtain ⟨hinv, hlen⟩ := storeInv_runOps ops hdel (Nat.le_of_lt hn)
  have hlt : (runOps ops).len < 4294967296 := by
    have := countCreates_le_length ops
    omega
  have hfresh := create_id_fresh (runOps ops) hinv hlt
  constructor
  · show TodoDatas.get (runOps ops) (i32ofNat ((runOps ops).len + 1)) = none
    refine Option.not_isSome_iff_eq_none.1 (fun hs => hfresh ?_)
    exact (TodoDatas.get_isSome_iff_mem_keys (runOps ops) _).1 hs
  · exact (storeInv_create (runOps ops) p hinv hlt).2

theorem create_id_fresh_of_deleteFree_witness :
    (∀ op ∈ [Op.create (CreateTodo.mk "a")], op.isDelete = false) ∧
    ([Op.create (CreateTodo.mk "a")] : List Op).length < 4294967296 ∧
    (find (runOps [Op.create (CreateTodo.mk "a")])
        ((create (runOps [Op.create (CreateTodo.mk "a")]) (CreateTodo.mk "b")).1.id) = none ∧
      (create (runOps [Op.create (CreateTodo.mk "a")]) (CreateTodo.mk "b")).2.len =
        (runOps [Op.create (CreateTodo.mk "a")]).len + 1) :=
  ⟨by decide, by norm_num,
    create_id_fresh_of_deleteFree [Op.create (CreateTodo.mk "a")] (CreateTodo.mk "b")
      (by decide) (by norm_num)⟩

/-- C2: `update` and `delete` on an id with no record both fail with
`NotFound(id)` and leave the store's mapping exactly as it was. -/
theorem update_delete_notFound_unchanged (s : TodoDatas) (id : Int)
    (p : UpdateTodo) (h : find s id = none) :
    applyCall s (Op.update id p) =
      (Output.updated (Except.error (RepositoryError.NotFound id)), s) ∧
    applyCall s (Op.delete id) =
      (Output.deleted (Except.error (RepositoryError.NotFound id)), s) := by
  rw [find] at h
  constructor
  · simp [applyCall, update, h]
  · simp [applyCall, delete, h]

theorem update_delete_notFound_unchanged_witness :
    (find TodoDatas.empty 1 = none) ∧
    (applyCall TodoDatas.empty (Op.update 1 (UpdateTodo.mk none none)) =
      (Output.updated (Except.error (RepositoryError.NotFound 1)), TodoDatas.empty) ∧
    applyCall TodoDatas.empty (Op.delete 1) =
      (Output.deleted (Except.error (RepositoryError.NotFound 1)), TodoDatas.empty)) :=
  ⟨rfl, update_delete_notFound_unchanged TodoDatas.empty 1 (UpdateTodo.mk none none) rfl⟩

/-- C3: for every payload and every store state, `create` returns a Todo
with `completed = false` and `text` equal to the payload's text, and a
subsequent `find` on the returned id returns an equal record. -/
theorem create_defaults_and_find (s : TodoDatas) (p : CreateTodo) :
    (create s p).1.completed = false ∧ (create s p).1.text = p.text ∧
    find (create s p).2 ((create s p).1.id) = some (create s p).1 :=
  ⟨rfl, rfl, TodoDatas.get_insert_self s _ _⟩

/-- C4: on an existing record, `update` with only `text` set changes only
the text (completed and id keep their prior values); `update` with only
`completed` set changes only the completed flag; and records at every
other id are unchanged. -/
theorem update_merge_semantics (s : TodoDatas) (id : Int) (old : Todo)
    (t : String) (b : Bool) (h : find s id = some old) (hid : old.id = id) :
    applyCall s (Op.update id (UpdateTodo.mk (some t) none)) =
      (Output.updated (Except.ok (Todo.mk old.id t old.completed)),
        s.insert id (Todo.mk old.id t old.completed)) ∧
    applyCall s (Op.update id (UpdateTodo.mk none (some b))) =
      (Output.updated (Except.ok (Todo.mk old.id old.text b)),
        s.insert id (Todo.mk old.id old.text b)) ∧
    find (s.insert id (Todo.mk old.id t old.completed)) id =
      some (Todo.mk old.id t old.completed) ∧
    find (s.insert id (Todo.mk old.id old.text b)) id =
      some (Todo.mk old.id old.text b) ∧
    (∀ k : Int, k ≠ id →
      find (s.insert id (Todo.mk old.id t old.completed)) k = find s k) ∧
    (∀ k : Int, k ≠ id →
      find (s.insert id (Todo.mk old.id old.text b)) k = find s k) := by
  subst hid
  rw [find] at h
  refine ⟨by simp [applyCall, update, h], by simp [applyCall, update, h],
    TodoDatas.get_insert_self s _ _, TodoDatas.get_insert_self s _ _,
    fun k hk => TodoDatas.get_insert_ne s old.id k _ hk,
    fun k hk => TodoDatas.get_insert_ne s old.id k _ hk⟩

theorem update_merge_semantics_witness :
    (find [((1 : Int), Todo.mk 1 "a" false)] 1 = some (Todo.mk 1 "a" false)) ∧
    ((Todo.mk 1 "a" false).id = 1) ∧
    (applyCall [((1 : Int), Todo.mk 1 "a" false)] (Op.update 1 (UpdateTodo.mk (some "b") none)) =
      (Output.updated (Except.ok (Todo.mk (Todo.mk 1 "a" false).id "b" (Todo.mk 1 "a" false).completed)),
        TodoDatas.insert [((1 : Int), Todo.mk 1 "a" false)] 1
          (Todo.mk (Todo.mk 1 "a" false).id "b" (Todo.mk 1 "a" false).completed)) ∧
    applyCall [((1 : Int), Todo.mk 1 "a" false)] (Op.update 1 (UpdateTodo.mk none (some true))) =
      (Output.updated (Except.ok (Todo.mk (Todo.mk 1 "a" false).id (Todo.mk 1 "a" false).text true)),
        TodoDatas.insert [((1 : Int), Todo.mk 1 "a" false)] 1
          (Todo.mk (Todo.mk 1 "a" false).id (Todo.mk 1 "a" false).text true)) ∧
    find (TodoDatas.insert [((1 : Int), Todo.mk 1 "a" false)] 1
        (Todo.mk (Todo.mk 1 "a" false).id "b" (Todo.mk 1 "a" false).completed)) 1 =
      some (Todo.mk (Todo.mk 1 "a" false).id "b" (Todo.mk 1 "a" false).completed) ∧
    find (TodoDatas.insert [((1 : Int), Todo.mk 1 "a" false)] 1
        (Todo.mk (Todo.mk 1 "a" false).id (Todo.mk 1 "a" false).text true)) 1 =
      some (Todo.mk (Todo.mk 1 "a" false).id (Todo.mk 1 "a" false).text true) ∧
    (∀ k : Int, k ≠ 1 →
      find (TodoDatas.insert [((1 : Int), Todo.mk 1 "a" false)] 1
        (Todo.mk (Todo.mk 1 "a" false).id "b" (Todo.mk 1 "a" false).completed)) k =
      find [((1 : Int), Todo.mk 1 "a" false)] k) ∧
    (∀ k : Int, k ≠ 1 →
      find (TodoDatas.insert [((1 : Int), Todo.mk 1 "a" false)] 1
        (Todo.mk (Todo.mk 1 "a" false).id (Todo.mk 1 "a" false).text true)) k =
      find [((1 : Int), Todo.mk 1 "a" false)] k)) :=
  ⟨rfl, rfl,
    update_merge_semantics [((1 : Int), Todo.mk 1 "a" false)] 1 (Todo.mk 1 "a" false)
      "b" true rfl rfl⟩

set_option maxRecDepth 4000 in
/-- C5, counterexample: at a store state holding `2147483647` records, the
id computed by `create` is `(store.len() + 1) as i32 = -2147483648`, not
the number of stored records plus one — the `as i32` cast wraps. -/
theorem create_id_wraps_at_i32_boundary :
    (create bigStore (CreateTodo.mk "x")).1.id ≠ ((bigStore.len : Nat) : Int) + 1 := by
  have hlen : bigStore.len = 2147483647 := by
    simp [bigStore, TodoDatas.len]
  simp only [create, Todo.new, hlen]
  unfold i32ofNat
  norm_num

/-- C5, amended: for every state of the store whose size is small enough
that `size + 1` fits in `i32` (in particular every state of fewer than
`2^31 - 1` records), `create` assigns the new record the id
`(current number of stored records) + 1`, and stores the record there. -/
theorem create_assigns_len_succ (s : TodoDatas) (p : CreateTodo)
    (h : s.len + 1 < 2147483648) :
    (create s p).1.id = ((s.len : Nat) : Int) + 1 ∧
    find (create s p).2 (((s.len : Nat) : Int) + 1) = some (create s p).1 := by
  have hid : (create s p).1.id = ((s.len : Nat) : Int) + 1 := by
    show i32ofNat (s.len + 1) = _
    rw [i32ofNat_of_lt _ h]
    push_cast
    ring
  refine ⟨hid, ?_⟩
  rw [← hid]
  exact TodoDatas.get_insert_self s _ _

theorem create_assigns_len_succ_witness :
    (TodoDatas.empty.len + 1 < 2147483648) ∧
    ((create TodoDatas.empty (CreateTodo.mk "a")).1.id =
        ((TodoDatas.empty.len : Nat) : Int) + 1 ∧
      find (create TodoDatas.empty (CreateTodo.mk "a")).2
          (((TodoDatas.empty.len : Nat) : Int) + 1) =
        some (create TodoDatas.empty (CreateTodo.mk "a")).1) :=
  ⟨by norm_num [TodoDatas.empty, TodoDatas.len],
    create_assigns_len_succ TodoDatas.empty (CreateTodo.mk "a")
      (by norm_num [TodoDatas.empty, TodoDatas.len])⟩

/-- C6: a successful `delete(id)` removes exactly the record at `id`: a
subsequent `find(id)` is `none`, `all()` contains no record with that id,
and every record at a different id is unchanged.  The `IdInv` hypothesis
(every stored record carries the key it is stored under) holds in every
reachable state. -/
theorem delete_removes_exactly (s : TodoDatas) (id : Int) (todo : Todo)
    (h : find s id = some todo) (hinv : IdInv s) :
    (applyCall s (Op.delete id)).1 = Output.deleted (Except.ok ()) ∧
    find (applyCall s (Op.delete id)).2 id = none ∧
    (∀ u ∈ all (applyCall s (Op.delete id)).2, u.id ≠ id) ∧
    (∀ k : Int, k ≠ id → find (applyCall s (Op.delete id)).2 k = find s k) := by
  rw [find] at h
  have hstate : (applyCall s (Op.delete id)).2 = s.eraseKey id := by
    simp [applyCall, delete, h, TodoDatas.remove]
  have hout : (applyCall s (Op.delete id)).1 = Output.deleted (Except.ok ()) := by
    simp [applyCall, delete, h]
  refine ⟨hout, ?_, ?_, ?_⟩
  · rw [hstate]
    exact TodoDatas.get_eraseKey_self s id
  · rw [hstate]
    intro u hu
    rw [all, TodoDatas.values, List.mem_map] at hu
    obtain ⟨q, hq, rfl⟩ := hu
    obtain ⟨hqs, hqk⟩ := (TodoDatas.mem_eraseKey s id q).1 hq
    rw [hinv q hqs]
    exact hqk
  · intro k hk
    rw [hstate]
    exact TodoDatas.get_eraseKey_ne s id k hk

theorem delete_removes_exactly_witness :
    (find [((1 : Int), Todo.mk 1 "a" false)] 1 = some (Todo.mk 1 "a" false)) ∧
    IdInv [((1 : Int), Todo.mk 1 "a" false)] ∧
    ((applyCall [((1 : Int), Todo.mk 1 "a" false)] (Op.delete 1)).1 =
        Output.deleted (Except.ok ()) ∧
      find (applyCall [((1 : Int), Todo.mk 1 "a" false)] (Op.delete 1)).2 1 = none ∧
      (∀ u ∈ all (applyCall [((1 : Int), Todo.mk 1 "a" false)] (Op.delete 1)).2,
        u.id ≠ 1) ∧
      (∀ k : Int, k ≠ 1 →
        find (applyCall [((1 : Int), Todo.mk 1 "a" false)] (Op.delete 1)).2 k =
          find [((1 : Int), Todo.mk 1 "a" false)] k)) :=
  ⟨rfl, by decide,
    delete_removes_exactly [((1 : Int), Todo.mk 1 "a" false)] 1 (Todo.mk 1 "a" false)
      rfl (by decide)⟩

/-- C7, counterexample: after `2^32 + 1` create calls from the empty store
(with no deletes), `all()` returns only `2^32` records, not one per create
call: the id assigned by the last `create` wraps around to an id already
present, so that call replaces an existing record. -/
theorem creates_overflow_loses_record :
    (all (runOps ((List.replicate 4294967297 (CreateTodo.mk "a")).map Op.create))).length ≠
      (List.replicate 4294967297 (CreateTodo.mk "a")).length := by
  have hsplit : List.replicate 4294967297 (CreateTodo.mk "a") =
      List.replicate 4294967296 (CreateTodo.mk "a") ++ [CreateTodo.mk "a"] := by
    rw [show (4294967297 : Nat) = 4294967296 + 1 from rfl, List.replicate_succ']
  obtain ⟨hinv, hlen⟩ :=
    storeInv_runOps ((List.replicate 4294967296 (CreateTodo.mk "a")).map Op.create)
      (deleteFree_map_create _)
      (by rw [List.length_map, List.length_replicate])
  rw [countCreates_map_create, List.length_replicate] at hlen
  have hmem : i32ofNat
      ((runOps ((List.replicate 4294967296 (CreateTodo.mk "a")).map Op.create)).len + 1) ∈
      (runOps ((List.replicate 4294967296 (CreateTodo.mk "a")).map Op.create)).keys := by
    refine (hinv.2.1 _).2 ⟨0, ?_, ?_⟩
    · rw [hlen]; norm_num
    · rw [i32ofNat_inj_mod, hlen]
  have hstep : (create (runOps ((List.replicate 4294967296 (CreateTodo.mk "a")).map Op.create))
      (CreateTodo.mk "a")).2.len =
      (runOps ((List.replicate 4294967296 (CreateTodo.mk "a")).map Op.create)).len :=
    TodoDatas.len_insert_of_mem _ _ _ hinv.1 hmem
  rw [hsplit, List.map_append, List.map_singleton, runOps_append_one]
  have happ : (applyCall (runOps ((List.replicate 4294967296 (CreateTodo.mk "a")).map Op.create))
      (Op.create (CreateTodo.mk "a"))).2 =
      (create (runOps ((List.replicate 4294967296 (CreateTodo.mk "a")).map Op.create))
        (CreateTodo.mk "a")).2 := rfl
  rw [happ, all_len, hstep, hlen, List.length_append, List.length_replicate,
    List.length_singleton]
  norm_num

/-- C7, amended: for every `N ≤ 2^32` and every sequence of `N` create
calls from the empty store with no intervening deletes, `all()` afterwards
returns exactly `N` records with pairwise distinct ids.  (Beyond `2^32`
creates the wrapped `i32` id collides and a record is replaced.) -/
theorem all_after_creates (ps : List CreateTodo) (hn : ps.length ≤ 4294967296) :
    (all (runOps (ps.map Op.create))).length = ps.length ∧
    ((all (runOps (ps.map Op.create))).map Todo.id).Nodup := by
  obtain ⟨hinv, hlen⟩ := storeInv_runOps (ps.map Op.create)
    (deleteFree_map_create ps) (by rw [List.length_map]; exact hn)
  rw [countCreates_map_create] at hlen
  constructor
  · rw [all_len, hlen]
  · rw [all_map_id_eq_keys _ hinv.2.2]
    exact hinv.1

theorem all_after_creates_witness :
    (([CreateTodo.mk "a", CreateTodo.mk "b"] : List CreateTodo).length ≤ 4294967296) ∧
    ((all (runOps ([CreateTodo.mk "a", CreateTodo.mk "b"].map Op.create))).length =
        ([CreateTodo.mk "a", CreateTodo.mk "b"] : List CreateTodo).length ∧
      ((all (runOps ([CreateTodo.mk "a", CreateTodo.mk "b"].map Op.create))).map Todo.id).Nodup) :=
  ⟨by norm_num,
    all_after_creates [CreateTodo.mk "a", CreateTodo.mk "b"] (by norm_num)⟩

/-- C8: from the empty store, the trace
`create {text:"buy milk"}; update(1, {completed: some true}); delete(1); find(1)`
returns, in order, the record `{id := 1, text := "buy milk", completed := false}`,
the record `{id := 1, text := "buy milk", completed := true}`, success, and
`none` — and ends with the empty store. -/
theorem scenario_buy_milk :
    runTrace TodoDatas.empty
      [Op.create (CreateTodo.mk "buy milk"),
       Op.update 1 (UpdateTodo.mk none (some true)),
       Op.delete 1,
       Op.find 1] =
    ([Output.created (Todo.mk 1 "buy milk" false),
      Output.updated (Except.ok (Todo.mk 1 "buy milk" true)),
      Output.deleted (Except.ok ()),
      Output.found none], TodoDatas.empty) := by
  decide

/-- C9: `create`, `find` and `all` never fail: at every state, for every
id and every payload text (the store does not re-validate lengths, so this
includes the empty string and arbitrarily long strings), `create` returns
a Todo carrying the given text, `find` returns an optional record, and
`all` returns a list — none of them has an error outcome. -/
theorem create_find_all_never_fail (s : TodoDatas) (t : String) (id : Int) :
    (∃ todo s2, applyCall s (Op.create (CreateTodo.mk t)) = (Output.created todo, s2) ∧
      todo.text = t ∧ todo.completed = false) ∧
    (∃ r, applyCall s (Op.find id) = (Output.found r, s)) ∧
    (∃ l, applyCall s Op.all = (Output.listed l, s)) :=
  ⟨⟨_, _, rfl, rfl, rfl⟩, ⟨_, rfl⟩, ⟨_, rfl⟩⟩

/-- C10: `find` and `all` never modify the store: the state after either
call is exactly the state before it. -/
theorem find_all_preserve_store (s : TodoDatas) (id : Int) :
    (applyCall s (Op.find id)).2 = s ∧ (applyCall s Op.all).2 = s :=
  ⟨rfl, rfl⟩

end TodoMem
